import Mathlib

/-!
Verification of the streaming chat orchestration and model-resolution engine of
the CopilotApp repository (a browser client for an OpenAI-compatible streaming
chat endpoint).  The JavaScript source is shallowly embedded: JavaScript values
reachable from `JSON.parse` are modelled by the inductive type `Json`,
strings by Lean `String` (JS string operations re-implemented over `String.data`
character lists so that every definition is executable and kernel-reducible),
and the stateful orchestration code by explicit state-passing functions.
-/

namespace CopilotApp

/-! ## JavaScript value model

Values produced by `JSON.parse`.  Numeric literals are restricted to integers:
every numeric field of the chat protocol in scope (token counts, tool-call
indices, quota counters) is an integer. -/

inductive Json where
  | null : Json
  | bool (b : Bool) : Json
  | num (n : Int) : Json
  | str (s : String) : Json
  | arr (elems : List Json) : Json
  | obj (fields : List (String × Json)) : Json

/-- JavaScript truthiness (`if (v)`): `null`, `false`, `0` and the empty string
are falsy; every object and array (even empty) is truthy. -/
def jsTruthy : Json → Bool
  | .null => false
  | .bool b => b
  | .num n => if n = 0 then false else true
  | .str s => if s = "" then false else true
  | .arr _ => true
  | .obj _ => true

/-- JavaScript property read `v.k`: on an object, the property value (later
duplicate keys shadow earlier ones, as in JS); on any other value, `undefined`
(modelled as `none`).  The caller is responsible for the `v = null` case, which
throws in JS instead of returning `undefined`. -/
def jsField (j : Json) (k : String) : Option Json :=
  match j with
  | .obj kvs => kvs.foldl (fun acc kv => if kv.1 = k then some kv.2 else acc) none
  | _ => none

/-- JavaScript indexed read `v[0]`: element 0 of an array, property `"0"` of an
object, the first character of a string, `undefined` otherwise. -/
def jsIndex0 : Json → Option Json
  | .arr xs => xs.head?
  | .obj kvs => kvs.foldl (fun acc kv => if kv.1 = "0" then some kv.2 else acc) none
  | .str s =>
    match s.data with
    | [] => none
    | c :: _ => some (.str (String.mk [c]))
  | _ => none

/-- Optional-chaining guard `v?.`: `null` (and the absent value `none`,
JavaScript's `undefined`) short-circuit to `undefined`. -/
def jsGuard : Option Json → Option Json
  | some .null => none
  | x => x

/-! ## JavaScript string operations

Re-implemented over `String.data` so that they are plain structural recursions
(reducible by the kernel), mirroring `split`, `startsWith`, `slice` and `trim`. -/

/-- Whitespace recognised by `String.prototype.trim` (the subset that can occur
in the protocol: space, tab, newline, carriage return). -/
def isWsChar (c : Char) : Bool :=
  if c = ' ' then true else if c = '\t' then true else
  if c = '\n' then true else if c = '\r' then true else false

def dropWsHead : List Char → List Char
  | [] => []
  | c :: cs => if isWsChar c then dropWsHead cs else c :: cs

/-- JS `s.trim()`. -/
def jsTrim (s : String) : String :=
  String.mk ((dropWsHead (dropWsHead s.data).reverse).reverse)

def prefixChars : List Char → List Char → Bool
  | [], _ => true
  | _ :: _, [] => false
  | a :: as, b :: bs => if a = b then prefixChars as bs else false

/-- JS `s.startsWith(p)`. -/
def jsStartsWith (p s : String) : Bool := prefixChars p.data s.data

/-- JS `s.slice(n)` for a non-negative `n` (the source only uses `slice(6)`
after establishing the ASCII prefix `data: `, so code-unit and character
indexing agree). -/
def jsSlice (s : String) (n : Nat) : String := String.mk (s.data.drop n)

def splitNlChars : List Char → List (List Char)
  | [] => [[]]
  | c :: cs =>
    if c = '\n' then [] :: splitNlChars cs
    else
      match splitNlChars cs with
      | [] => [[c]]
      | g :: gs => (c :: g) :: gs

/-- JS `s.split('\n')`. -/
def splitNl (s : String) : List String := (splitNlChars s.data).map String.mk

/-! ## JSON parser

Embedding of `JSON.parse` restricted to the payloads the protocol carries:
objects, arrays, strings (with the plain escapes), integer numeric literals,
`true`, `false`, `null`.  Fuel-based recursive descent; the fuel chosen by
`parseJson` exceeds any possible recursion depth, so the restriction is
invisible on well-formed input. -/

def skipWs : List Char → List Char
  | [] => []
  | c :: cs => if isWsChar c then skipWs cs else c :: cs

/-- Parse the body of a string literal (after the opening quote), returning the
decoded characters and the remainder after the closing quote. -/
def parseStrAux : Nat → List Char → Option (List Char × List Char)
  | 0, _ => none
  | _ + 1, [] => none
  | fuel + 1, c :: cs =>
    if c = '"' then some ([], cs)
    else if c = '\\' then
      match cs with
      | [] => none
      | e :: cs2 =>
        let dec : Option Char :=
          if e = '"' then some '"'
          else if e = '\\' then some '\\'
          else if e = '/' then some '/'
          else if e = 'n' then some '\n'
          else if e = 't' then some '\t'
          else if e = 'r' then some '\r'
          else if e = 'b' then some (Char.ofNat 8)
          else if e = 'f' then some (Char.ofNat 12)
          else none
        match dec with
        | none => none
        | some d =>
          match parseStrAux fuel cs2 with
          | none => none
          | some (body, rest) => some (d :: body, rest)
    else
      match parseStrAux fuel cs with
      | none => none
      | some (body, rest) => some (c :: body, rest)

def takeDigits : List Char → List Char × List Char
  | [] => ([], [])
  | c :: cs =>
    if c.isDigit then
      match takeDigits cs with
      | (ds, rest) => (c :: ds, rest)
    else ([], c :: cs)

def natOfDigits (ds : List Char) : Nat :=
  ds.foldl (fun n c => n * 10 + (c.toNat - 48)) 0

/-- Parse an integer numeral (optional minus sign, digits).  Fails when a
fraction or exponent follows: the protocol's numeric fields are integers. -/
def parseIntNum (cs : List Char) : Option (Json × List Char) :=
  let signed := match cs with
    | '-' :: rest => (true, rest)
    | _ => (false, cs)
  match takeDigits signed.2 with
  | ([], _) => none
  | (ds, rest) =>
    let bad := match rest with
      | d :: _ => if d = '.' then true else if d = 'e' then true else if d = 'E' then true else false
      | [] => false
    if bad then none
    else
      let v : Int := Int.ofNat (natOfDigits ds)
      some (.num (if signed.1 then -v else v), rest)

inductive PMode where
  | val : PMode
  | items : PMode
  | fields : PMode

inductive PRes where
  | v (j : Json) : PRes
  | items (xs : List Json) : PRes
  | fields (kvs : List (String × Json)) : PRes

def parseCore : Nat → PMode → List Char → Option (PRes × List Char)
  | 0, _, _ => none
  | fuel + 1, .val, cs =>
    match skipWs cs with
    | [] => none
    | c :: rest =>
      if c = 'n' then
        match rest with
        | 'u' :: 'l' :: 'l' :: r => some (.v .null, r)
        | _ => none
      else if c = 't' then
        match rest with
        | 'r' :: 'u' :: 'e' :: r => some (.v (.bool true), r)
        | _ => none
      else if c = 'f' then
        match rest with
        | 'a' :: 'l' :: 's' :: 'e' :: r => some (.v (.bool false), r)
        | _ => none
      else if c = '"' then
        match parseStrAux fuel rest with
        | some (body, r) => some (.v (.str (String.mk body)), r)
        | none => none
      else if c = '[' then
        match skipWs rest with
        | ']' :: r => some (.v (.arr []), r)
        | _ =>
          match parseCore fuel .items rest with
          | some (.items xs, r) => some (.v (.arr xs), r)
          | _ => none
      else if c = '{' then
        match skipWs rest with
        | '}' :: r => some (.v (.obj []), r)
        | _ =>
          match parseCore fuel .fields rest with
          | some (.fields kvs, r) => some (.v (.obj kvs), r)
          | _ => none
      else if c = '-' then
        match parseIntNum (c :: rest) with
        | some (j, r) => some (.v j, r)
        | none => none
      else if c.isDigit then
        match parseIntNum (c :: rest) with
        | some (j, r) => some (.v j, r)
        | none => none
      else none
  | fuel + 1, .items, cs =>
    match parseCore fuel .val cs with
    | some (.v j, r) =>
      match skipWs r with
      | ',' :: r2 =>
        match parseCore fuel .items r2 with
        | some (.items xs, r3) => some (.items (j :: xs), r3)
        | _ => none
      | ']' :: r2 => some (.items [j], r2)
      | _ => none
    | _ => none
  | fuel + 1, .fields, cs =>
    match skipWs cs with
    | '"' :: r =>
      match parseStrAux fuel r with
      | some (kcs, r1) =>
        match skipWs r1 with
        | ':' :: r2 =>
          match parseCore fuel .val r2 with
          | some (.v j, r3) =>
            match skipWs r3 with
            | ',' :: r4 =>
              match parseCore fuel .fields r4 with
              | some (.fields kvs, r5) => some (.fields ((String.mk kcs, j) :: kvs), r5)
              | _ => none
            | '}' :: r4 => some (.fields [(String.mk kcs, j)], r4)
            | _ => none
          | _ => none
        | _ => none
      | none => none
    | _ => none

/-- Embedding of `JSON.parse`: `none` models a thrown `SyntaxError`. -/
def parseJson (s : String) : Option Json :=
  match parseCore (2 * s.data.length + 4) .val s.data with
  | some (.v j, rest) =>
    match skipWs rest with
    | [] => some j
    | _ => none
  | _ => none

/-! ## Stream decoder

Embedding of the read loop of `sendChatMessageStream`
(`src/api/copilot.js`, lines 369-397):

  while (true) {
    const { done, value } = await reader.read();
    if (done) break;
    const chunk = decoder.decode(value, { stream: true });
    const lines = chunk.split('\n');
    for (const line of lines) {
      if (!line.startsWith('data: ')) continue;
      const payload = line.slice(6).trim();
      if (payload === '[DONE]') break;
      try {
        const parsed = JSON.parse(payload);
        const delta = parsed.choices?.[0]?.delta?.content;
        if (delta) onChunk(delta);
        if (parsed.usage) usage = parsed.usage;
      } catch { /- ignore malformed chunks -/ }
    }
  }

The decoder state records the sequence of arguments passed to `onChunk` and
the current value of the `usage` variable (initially the empty object). -/

structure DecState where
  deltas : List Json
  usage : Json

def initDecState : DecState := ⟨[], .obj []⟩

/-- The optional chain `parsed.choices?.[0]?.delta?.content`.  The first read
(`parsed.choices`) is unguarded; callers handle `parsed = null`, the only value
on which it would throw. -/
def frameDelta (j : Json) : Option Json :=
  (jsGuard ((jsGuard ((jsGuard (jsField j "choices")).bind jsIndex0)).bind
    (fun d => jsField d "delta"))).bind (fun d => jsField d "content")

def isNullJson : Json → Bool
  | .null => true
  | _ => false

/-- The body of the `try` block for one `data: ` payload.  `parseJson = none`
models the `SyntaxError` of `JSON.parse`; a parsed `null` makes `parsed.choices`
throw a `TypeError`, also swallowed by the `catch`, so the whole frame is
skipped in both cases. -/
def processPayload (st : DecState) (payload : String) : DecState :=
  match parseJson payload with
  | none => st
  | some j =>
    if isNullJson j then st
    else
      let st1 := match frameDelta j with
        | some d => if jsTruthy d then { st with deltas := st.deltas ++ [d] } else st
        | none => st
      match jsField j "usage" with
      | some u => if jsTruthy u then { st1 with usage := u } else st1
      | none => st1

def isDataLine (l : String) : Bool := jsStartsWith "data: " l

/-- The payload of a protocol line: `line.slice(6).trim()`. -/
def payloadOf (l : String) : String := jsTrim (jsSlice l 6)

/-- The `for (const line of lines)` loop over one chunk's lines.  A non-`data: `
line is skipped (`continue`); a `[DONE]` payload exits the loop (`break`),
abandoning only the remaining lines of the same chunk. -/
def processLines (st : DecState) : List String → DecState
  | [] => st
  | l :: ls =>
    if isDataLine l then
      if payloadOf l = "[DONE]" then st
      else processLines (processPayload st (payloadOf l)) ls
    else processLines st ls

def processChunk (st : DecState) (chunk : String) : DecState :=
  processLines st (splitNl chunk)

/-- The outer `while (true)` read loop: one iteration per network chunk, in
arrival order.  Note that no state other than `deltas`/`usage` survives a chunk
boundary - in particular there is no partial-line buffer. -/
def decodeStream (chunks : List String) : DecState :=
  chunks.foldl processChunk initDecState

def jsonTextOf : Json → String
  | .str s => s
  | _ => ""

/-- Concatenation of the delivered text deltas. -/
def deltasText (ds : List Json) : String := ds.foldl (fun a d => a ++ jsonTextOf d) ""

/-! ## Conversation model and the send-message orchestration

Embedding of the conversation state touched by `sendMessage`
(`src/components/Chat.jsx`, lines 86-166; the unnamed tool-loop revision of the
same component has the identical placeholder/delta/abort/error handling).
A message object carries `role`, `content`, optionally `model`, and the
`pending`/`error` flags (absent flags read as falsy, modelled by `false`). -/

inductive Role where
  | user : Role
  | assistant : Role
  | system : Role
  | tool : Role

instance : DecidableEq Role := fun a b => by
  cases a <;> cases b <;> first
    | exact isTrue rfl
    | exact isFalse (fun h => by cases h)

structure Msg where
  role : Role
  content : String
  model : Option String := none
  pending : Bool := false
  error : Bool := false

/-- The update pattern used for every conversation mutation:

  existing.map((m, i) => i === existing.length - 1 && m.pending ? f(m) : m)

replaces the trailing message when it is pending, and touches nothing else. -/
def updateTrailing (f : Msg → Msg) (msgs : List Msg) : List Msg :=
  msgs.mapIdx (fun i m => if i = msgs.length - 1 ∧ m.pending then f m else m)

/-- The `onChunk` callback applied to each received text delta in order:
`accumulatedContent += chunk` followed by a replace of the trailing pending
message's content with the accumulator. -/
def applyDeltas : List Msg → String → List String → List Msg × String
  | msgs, acc, [] => (msgs, acc)
  | msgs, acc, d :: ds =>
    let acc2 := acc ++ d
    applyDeltas (updateTrailing (fun m => { m with content := acc2 }) msgs) acc2 ds

/-- The `Mark as complete` block: clear `pending` on the trailing pending
message. -/
def markComplete (msgs : List Msg) : List Msg :=
  updateTrailing (fun m => { m with pending := false }) msgs

/-- The non-abort `catch` branch: replace content with an error description,
clear `pending`, set `error`. -/
def markFailed (emsg : String) (msgs : List Msg) : List Msg :=
  updateTrailing
    (fun m => { m with content := "[Error: " ++ emsg ++ "]", pending := false, error := true })
    msgs

/-- How one `sendMessage` invocation terminates: the stream runs to completion,
is aborted by cooperative cancellation (the `AbortError` branch of the `catch`
returns immediately after resetting the `streaming` flag), or fails with any
other error.  In each case `deltas` lists the text chunks delivered before the
end. -/
inductive StreamOutcome where
  | success (deltas : List String) : StreamOutcome
  | aborted (deltas : List String) : StreamOutcome
  | failed (deltas : List String) (emsg : String) : StreamOutcome

/-- The conversation-state effect of one plain (tool-free) `sendMessage` call:
append the user turn and a pending assistant placeholder, stream the deltas
into the placeholder, then finalize according to the outcome.  On
`aborted` the function returns from the `catch` without any further
conversation update. -/
def runSendMessage (history : List Msg) (input : String) (model : String)
    (outcome : StreamOutcome) : List Msg :=
  let userMsg : Msg := { role := .user, content := jsTrim input }
  let assistantMsg : Msg :=
    { role := .assistant, content := "", model := some model, pending := true }
  let start := history ++ [userMsg, assistantMsg]
  match outcome with
  | .success ds => markComplete (applyDeltas start "" ds).1
  | .aborted ds => (applyDeltas start "" ds).1
  | .failed ds emsg => markFailed emsg (applyDeltas start "" ds).1

/-! ## The agentic tool-call loop

Embedding of the loop of `sendMessage` in the tool-enabled revision of the Chat
component (the unnamed source file, lines 143-230):

  for (let iter = 0; iter < 5; iter++) {
    let accumulatedContent = '';
    const { toolCalls } = await sendChatMessageStream(..., onChunk, ...);
    if (!toolCalls?.length) break;
    apiMessages = [...apiMessages, { role: 'assistant',
      content: accumulatedContent || null, tool_calls: toolCalls }];
    for (const tc of toolCalls) { ... braveSearch ...; apiMessages.push(
      { role: 'tool', tool_call_id: tc.id, content: result }); }
    displayPrefix += '\n';
  }

The network stream and the search collaborator are abstracted as oracles: the
loop's round-trip bound holds for every possible model/search behavior. -/

structure ToolCall where
  id : String
  arguments : String

structure ApiMsg where
  role : Role
  content : Option String
  toolCalls : List ToolCall := []
  toolCallId : Option String := none

/-- The result of one streaming round trip as consumed by the loop: the text
deltas delivered to `onChunk` and the completed tool-call requests surfaced at
stream end. -/
structure StreamTurn where
  deltas : List String
  toolCalls : List ToolCall

mutual

/-- JS string coercion of a parsed value, as used by the template literal that
renders the search-progress line. -/
def jsDisplay : Json → String
  | .null => "null"
  | .bool b => cond b "true" "false"
  | .num n => toString n
  | .str s => s
  | .obj _ => "[object Object]"
  | .arr xs => jsDisplayItems xs

/-- Array elements joined by commas, `null` elements rendering empty, as in
`Array.prototype.toString`. -/
def jsDisplayItems : List Json → String
  | [] => ""
  | x :: xs =>
    (match x with
      | .null => ""
      | j => jsDisplay j) ++ (if xs.isEmpty then "" else ",") ++ jsDisplayItems xs

end

/-- Argument extraction for one tool call: `JSON.parse` of
`tc.function.arguments` with `{}` substituted on parse failure, then
`args.query || ''`. -/
def toolQuery (tc : ToolCall) : Json :=
  let args := (parseJson tc.arguments).getD (.obj [])
  match jsField args "query" with
  | some v => if jsTruthy v then v else .str ""
  | none => .str ""

def searchLine (tc : ToolCall) : String :=
  "🔍 Searching: \"" ++ jsDisplay (toolQuery tc) ++ "\"\n"

structure TurnState where
  apiMsgs : List ApiMsg
  dp : String
  conv : List Msg

/-- The `onChunk` writes of one streaming round inside the loop: the trailing
pending message's content is replaced by `displayPrefix + accumulatedContent`
after each delta. -/
def applyLoopDeltas : TurnState → String → List String → TurnState × String
  | ts, acc, [] => (ts, acc)
  | ts, acc, d :: ds =>
    let acc2 := acc ++ d
    applyLoopDeltas
      { ts with conv := updateTrailing (fun m => { m with content := ts.dp ++ acc2 }) ts.conv }
      acc2 ds

/-- The `for (const tc of toolCalls)` body: extend the display prefix with a
progress line, reflect it into the trailing pending message, run the search
collaborator, and append the tool-result message to the API message list. -/
def execTools (search : Json → String) (tcs : List ToolCall) (ts : TurnState) : TurnState :=
  tcs.foldl
    (fun t tc =>
      let dp2 := t.dp ++ searchLine tc
      { apiMsgs := t.apiMsgs ++
          [{ role := .tool, content := some (search (toolQuery tc)), toolCallId := some tc.id }],
        dp := dp2,
        conv := updateTrailing (fun m => { m with content := dp2 }) t.conv })
    ts

/-- The assistant message carrying the model's tool-call request that is
appended to the API message list:
`{ role: 'assistant', content: accumulatedContent || null, tool_calls }`. -/
def assistantToolMsg (r : StreamTurn) (acc : String) : ApiMsg :=
  { role := .assistant, content := if acc = "" then none else some acc,
    toolCalls := r.toolCalls }

/-- The state after one round's stream and the append of the assistant
tool-call message, just before the tool calls execute. -/
def midState (oracle : List ApiMsg → StreamTurn) (ts : TurnState) : TurnState :=
  ⟨(applyLoopDeltas ts "" (oracle ts.apiMsgs).deltas).1.apiMsgs ++
      [assistantToolMsg (oracle ts.apiMsgs) (applyLoopDeltas ts "" (oracle ts.apiMsgs).deltas).2],
    (applyLoopDeltas ts "" (oracle ts.apiMsgs).deltas).1.dp,
    (applyLoopDeltas ts "" (oracle ts.apiMsgs).deltas).1.conv⟩

/-- One full non-final loop iteration: stream, append the assistant tool-call
message, execute the tool calls, and close with `displayPrefix += '\n'`. -/
def toolStep (oracle : List ApiMsg → StreamTurn) (search : Json → String)
    (ts : TurnState) : TurnState :=
  let ts3 := execTools search (oracle ts.apiMsgs).toolCalls (midState oracle ts)
  ⟨ts3.apiMsgs, ts3.dp ++ "\n", ts3.conv⟩

/-- The bounded loop itself; the first component of the result counts the
streaming round trips performed.  `fuel` is the remaining iteration budget of
`for (let iter = 0; iter < 5; iter++)`; an iteration whose stream reports no
tool calls is the last (`break`). -/
def toolLoop (oracle : List ApiMsg → StreamTurn) (search : Json → String) :
    Nat → TurnState → Nat × TurnState
  | 0, ts => (0, ts)
  | fuel + 1, ts =>
    if (oracle ts.apiMsgs).toolCalls.isEmpty then
      (1, (applyLoopDeltas ts "" (oracle ts.apiMsgs).deltas).1)
    else
      let rest := toolLoop oracle search fuel (toolStep oracle search ts)
      (rest.1 + 1, rest.2)

/-- The whole tool-enabled `sendMessage` on its non-exception path: append the
user turn and the pending placeholder, run the loop with budget 5, then mark
the turn complete. -/
def runTurn (oracle : List ApiMsg → StreamTurn) (search : Json → String)
    (conv0 : List Msg) (initMsgs : List ApiMsg) (input model : String) : Nat × List Msg :=
  let userMsg : Msg := { role := .user, content := jsTrim input }
  let ph : Msg := { role := .assistant, content := "", model := some model, pending := true }
  let ts0 : TurnState := ⟨initMsgs, "", conv0 ++ [userMsg, ph]⟩
  let run := toolLoop oracle search 5 ts0
  (run.1, markComplete run.2.conv)

/-! ## Model catalog cache

Embedding of the module-level cache state and the synchronous prefix of
`fetchModels` (`src/api/copilot.js`, lines 43-48 and 78-96).  The async IIFE
runs up to `await fetch` synchronously, so launching a request and storing the
in-flight promise happen atomically within one call; promise identities are
drawn from a counter. -/

structure CacheState where
  cache : Option (List Json)
  cacheTime : Nat
  cacheToken : Option String
  cachePromiseId : Option Nat
  nextId : Nat

def MODEL_CACHE_TTL : Nat := 3600000

inductive FetchOutcome where
  | cached (entries : List Json) : FetchOutcome
  | shared (p : Nat) : FetchOutcome
  | launched (p : Nat) : FetchOutcome

/-- Steps past the cache-hit check: return the in-flight promise when one
exists, otherwise create a fresh promise (issuing the single network
request) and store it. -/
def continueFetch (st : CacheState) : FetchOutcome × CacheState :=
  match st.cachePromiseId with
  | some p => (.shared p, st)
  | none =>
    (.launched st.nextId, { st with cachePromiseId := some st.nextId, nextId := st.nextId + 1 })

/-- One `fetchModels(token, {forceRefresh})` call observed at time `now`:
token-change invalidation, then the cache-hit fast path, then promise
deduplication.  (`now - cacheTime` in JS can be negative, which also satisfies
`< TTL`; Nat truncation gives `0`, with the same outcome.) -/
def fetchModelsStep (st : CacheState) (token : String) (forceRefresh : Bool) (now : Nat) :
    FetchOutcome × CacheState :=
  let st1 :=
    if st.cacheToken = some token then st
    else
      { st with
        cache := none, cacheTime := 0, cachePromiseId := none, cacheToken := some token }
  match st1.cache, forceRefresh with
  | some entries, false =>
    if now - st1.cacheTime < MODEL_CACHE_TTL then (.cached entries, st1)
    else continueFetch st1
  | _, _ => continueFetch st1

/-- Number of network requests a call outcome stands for. -/
def launches : FetchOutcome → Nat
  | .launched _ => 1
  | _ => 0

/-- A valid cached result for credential `t` at time `now`: the cache was built
for `t`, holds entries, and its age is below the TTL - exactly the condition
under which the cache-hit fast path of `fetchModels` can return it.  Its
negation is the claims' "no valid cached result" (covering a cold cache, a
credential change, and a TTL-expired entry alike). -/
def cacheValidAt (st : CacheState) (t : String) (now : Nat) : Prop :=
  st.cacheToken = some t ∧ st.cache.isSome = true ∧ now - st.cacheTime < MODEL_CACHE_TTL

/-! ## Session coordination (`handleSend`)

Embedding of the send guard (`src/components/Chat.jsx`, lines 168-198; the
tool-loop revision is identical).  The component keeps a single boolean
`streaming` flag: it is set before any orchestration starts and reset in the
`finally`, so it is `true` exactly while an orchestration (single or
compare-mode pair) is in flight, for whatever conversation. -/

structure CoordState where
  streaming : Bool
  input : String
  /-- `activeConvId`; `none` models `null` (the `_default` thread). -/
  activeConvId : Option String
  /-- The `targetKey` of the in-flight orchestration, when one is active. -/
  orchTarget : Option String

/-- The conversation key a send would target: `activeConvId || '_default'`. -/
def convKey (st : CoordState) : String := st.activeConvId.getD "_default"

inductive SendDecision where
  /-- The guard `!input.trim() || streaming` returned early: no orchestration,
  no error banner. -/
  | rejected : SendDecision
  /-- No model selected: error banner, no orchestration. -/
  | rejectedNoModel : SendDecision
  /-- An orchestration is started for the given conversation key. -/
  | accepted (target : String) : SendDecision

/-- The decision prefix of `handleSend`. -/
def handleSendStep (st : CoordState) (selectedModel : Option String) : SendDecision :=
  if jsTrim st.input = "" ∨ st.streaming then .rejected
  else
    match selectedModel with
    | none => .rejectedNoModel
    | some _ => .accepted (convKey st)

/-- Accepting a send sets the `streaming` flag and records the orchestration
target until the `finally` block of `handleSend` runs. -/
def startSend (st : CoordState) (target : String) : CoordState :=
  { st with streaming := true, orchTarget := some target }

/-- The `finally` block of `handleSend`: clear the input and the flag. -/
def finishSend (st : CoordState) : CoordState :=
  { st with streaming := false, input := "", orchTarget := none }

/-! ## Outbound streaming request body

The tool-aware revision of `sendChatMessageStream` that the tool-loop Chat
component calls (destructuring `toolCalls` from its result and passing a
`tools` option) is not part of the source snapshot; only its caller is.  Its
request body is therefore modelled from the spec.  The caller-side option
assembly below is embedded from the unnamed tool-loop component, lines 112-113
and 168. -/

structure ToolDescriptor where
  typeName : String
  fnName : String
  description : String
  requiredParams : List String

/-- The fixed JSON-schema descriptor for the single declared capability. -/
def braveSearchTool : ToolDescriptor :=
  { typeName := "function",
    fnName := "brave_search",
    description :=
      "Search the web using Brave Search to find current information, news, or facts.",
    requiredParams := ["query"] }

/-- `const tools = braveApiKey ? [BRAVE_SEARCH_TOOL] : []` (the key read from
storage, `null` coerced to the empty string). -/
def configuredTools (braveApiKey : String) : List ToolDescriptor :=
  if braveApiKey = "" then [] else [braveSearchTool]

structure StreamCallOptions where
  temperature : Option Rat
  maxTokens : Option Nat
  tools : Option (List ToolDescriptor)

/-- The options object the tool-loop caller passes to the streaming API:
`{ temperature, maxTokens, ...(tools.length ? { tools } : {}) }`. -/
def buildStreamOptions (temperature : Rat) (maxTokens : Nat)
    (tools : List ToolDescriptor) : StreamCallOptions :=
  { temperature := some temperature,
    maxTokens := some maxTokens,
    tools := if tools.isEmpty then none else some tools }

structure ChatRequestBody where
  model : String
  messages : List ApiMsg
  temperature : Rat
  maxTokens : Nat
  stream : Bool
  tools : Option (List ToolDescriptor)

/-- Modelled from the spec: the body built by the tool-aware
`sendChatMessageStream` revision (absent from the snapshot; only its caller
is present).  Spec section 6: JSON body `{ model, messages,
temperature (default 0.7), max_tokens (default 4096), stream: true,
tools? }`, the `tools` field carried through from the caller's options when
supplied. -/
def streamRequestBody (modelId : String) (messages : List ApiMsg)
    (opts : StreamCallOptions) : ChatRequestBody :=
  { model := modelId,
    messages := messages,
    temperature := opts.temperature.getD (7 / 10 : Rat),
    maxTokens := (opts.maxTokens.getD 4096),
    stream := true,
    tools := opts.tools }

/-! ## Quota extraction

Embedding of `extractPremiumQuota` (`src/api/copilot.js`, lines 207-271).
JS `null`/`undefined` arguments are modelled by `Json.null`; the `Option`
result distinguishes a returned quota object from the `return null` fallthrough. -/

/-- JS `'k' in v` for an object; property-existence on the shapes in scope. -/
def hasProp (j : Json) (k : String) : Bool :=
  match j with
  | .obj kvs => kvs.any (fun kv => kv.1 = k)
  | _ => false

/-- The predicate of the `Object.values(...).find` probe:
`v && typeof v === 'object' && 'quota' in v`. -/
def isQuotaShaped (j : Json) : Bool :=
  match j with
  | .obj kvs => kvs.any (fun kv => kv.1 = "quota")
  | _ => false

/-- JS `Object.values(v)` for the value shapes in scope. -/
def objValues : Json → List Json
  | .obj kvs => kvs.map (fun kv => kv.2)
  | .arr xs => xs
  | .str s => s.data.map (fun c => .str (String.mk [c]))
  | _ => []

/-- Nullish-coalescing default: `o ?? d`. -/
def nullishD (o : Option Json) (d : Json) : Json :=
  match jsGuard o with
  | some v => v
  | none => d

/-- The first branch of `extractPremiumQuota`: the `??`-chain over the known
key aliases, then the generic `Object.values(...).find(...)` probe, returned
only when truthy. -/
def quotaFromLimited (lq : Json) : Option Json :=
  let q :=
    jsGuard (jsField lq "chat_premium_requests") <|>
    jsGuard (jsField lq "premium_requests") <|>
    jsGuard (jsField lq "chat_premium") <|>
    jsGuard (jsField lq "premium") <|>
    (objValues lq).find? (fun v => jsTruthy v && isQuotaShaped v)
  match q with
  | some v => if jsTruthy v then some v else none
  | none => none

/-- `extractPremiumQuota(limitedQuotas, copilotTokenData, subscription)`.  The
source's recursive call on the nested
`copilotTokenData.quotas.limited_user_quotas` passes `null` for the other two
arguments, so it reduces to the first branch and is inlined as
`quotaFromLimited`. -/
def extractPremiumQuota (limitedQuotas copilotTokenData subscription : Json) : Option Json :=
  let b1 := if jsTruthy limitedQuotas then quotaFromLimited limitedQuotas else none
  match b1 with
  | some qv => some qv
  | none =>
    let nested :=
      (jsGuard ((jsGuard (some copilotTokenData)).bind (fun v => jsField v "quotas"))).bind
        (fun v => jsField v "limited_user_quotas")
    let b2 :=
      match nested with
      | some v => if jsTruthy v then quotaFromLimited v else none
      | none => none
    match b2 with
    | some qv => some qv
    | none =>
      let subQuota := (jsGuard (some subscription)).bind
        (fun v => jsField v "premium_chat_completions")
      let b3 :=
        match subQuota with
        | some v => if jsTruthy v && isQuotaShaped v then some v else none
        | none => none
      match b3 with
      | some qv => some qv
      | none =>
        if jsTruthy copilotTokenData
            && hasProp copilotTokenData "quota" && hasProp copilotTokenData "used" then
          some (.obj
            [("quota", (jsField copilotTokenData "quota").getD .null),
             ("used", (jsField copilotTokenData "used").getD .null),
             ("overage", nullishD (jsField copilotTokenData "overage") (.num 0)),
             ("overage_usd", nullishD (jsField copilotTokenData "overage_usd") (.num 0))])
        else none

/-- `hasUnlimitedQuotas` (`src/api/copilot.js`, lines 279-284). -/
def hasUnlimitedQuotas (unlimitedQuotas : Json) : Bool :=
  if jsTruthy unlimitedQuotas = false then false
  else
    match unlimitedQuotas with
    | .arr xs => decide (0 < xs.length)
    | .obj kvs => decide (0 < kvs.length)
    | _ => jsTruthy unlimitedQuotas

/-! ## Derived forms used to state the decoder properties -/

/-- The deltas one parsed frame contributes: its `choices[0].delta.content`
when truthy, nothing otherwise. -/
def frameDeliver (j : Json) : List Json :=
  match frameDelta j with
  | some d => if jsTruthy d then [d] else []
  | none => []

/-- The usage-variable update one parsed frame performs. -/
def usageStep (u : Json) (j : Json) : Json :=
  match jsField j "usage" with
  | some v => if jsTruthy v then v else u
  | none => u

def deliveredOf : List Json → List Json
  | [] => []
  | j :: fs => frameDeliver j ++ deliveredOf fs

/-- Last-seen-wins fold of the `usage` objects carried by a frame sequence. -/
def framesUsage (u : Json) : List Json → Json
  | [] => u
  | j :: fs =>
    framesUsage
      (match jsField j "usage" with
        | some v => v
        | none => u) fs

/-- The text of one frame's `choices[0].delta.content` (empty when absent). -/
def frameTextOf (j : Json) : String :=
  match frameDelta j with
  | some (.str s) => s
  | _ => ""

def framesText : List Json → String
  | [] => ""
  | j :: fs => frameTextOf j ++ framesText fs

/-- A physical line carrying one valid protocol frame whose parse is `j`: it has
the `data: ` prefix, is not the terminator, parses, is not the JSON `null`
(which the decoder skips via the swallowed `TypeError`), and - as the protocol
guarantees for valid frames - carries its text delta as a string (if at all)
and its usage record as an object (if at all). -/
def ValidFrameLine (l : String) (j : Json) : Prop :=
  isDataLine l = true ∧
  payloadOf l ≠ "[DONE]" ∧
  parseJson (payloadOf l) = some j ∧
  isNullJson j = false ∧
  (match frameDelta j with
    | none => True
    | some (.str _) => True
    | some _ => False) ∧
  (match jsField j "usage" with
    | none => True
    | some (.obj _) => True
    | some _ => False)

/-- Relates a physical line sequence to the valid frames it carries: every line
either carries a frame or is skipped by the `data: ` prefix test. -/
inductive LinesFrames : List String → List Json → Prop where
  | nil : LinesFrames [] []
  | skip (l : String) (ls : List String) (fs : List Json) :
      isDataLine l = false → LinesFrames ls fs → LinesFrames (l :: ls) fs
  | frame (l : String) (j : Json) (ls : List String) (fs : List Json) :
      ValidFrameLine l j → LinesFrames ls fs → LinesFrames (l :: ls) (j :: fs)

/-- A line that does not trigger the `[DONE]` break. -/
def BreakFreeLine (l : String) : Prop :=
  isDataLine l = true → payloadOf l ≠ "[DONE]"

/-- Concatenation of delivered text chunks (`accumulatedContent` at stream
end). -/
def concatStr : List String → String
  | [] => ""
  | d :: ds => d ++ concatStr ds

/-- The pending assistant placeholder with a given accumulated body. -/
def asstPh (model : String) (body : String) : Msg :=
  { role := .assistant, content := body, model := some model, pending := true, error := false }

/-! ## Supporting lemmas: stream decoder -/

theorem processPayload_valid (st : DecState) (p : String) (j : Json)
    (hp : parseJson p = some j) (hnn : isNullJson j = false) :
    processPayload st p = ⟨st.deltas ++ frameDeliver j, usageStep st.usage j⟩ := by
  cases st
  unfold processPayload
  rw [hp]
  simp only [hnn, Bool.false_eq_true, if_false]
  cases hfd : frameDelta j <;> cases hu : jsField j "usage" <;>
    simp only [frameDeliver, usageStep, hfd, hu] <;>
    (try split) <;> (try split) <;> simp_all

theorem processPayload_deltas (p : String) :
    ∃ add : List Json, ∀ st : DecState, (processPayload st p).deltas = st.deltas ++ add := by
  unfold processPayload
  cases hp : parseJson p with
  | none => exact ⟨[], fun st => by simp⟩
  | some j =>
    by_cases hnn : isNullJson j = true
    · exact ⟨[], fun st => by simp [hnn]⟩
    · simp only [Bool.not_eq_true] at hnn
      refine ⟨frameDeliver j, fun st => ?_⟩
      have := processPayload_valid st p j hp hnn
      unfold processPayload at this
      rw [hp] at this
      rw [this]

theorem processLines_deltas (ls : List String) :
    ∃ add : List Json, ∀ st : DecState, (processLines st ls).deltas = st.deltas ++ add := by
  induction ls with
  | nil => exact ⟨[], fun st => by simp [processLines]⟩
  | cons l ls ih =>
    by_cases h1 : isDataLine l = true
    · by_cases h2 : payloadOf l = "[DONE]"
      · exact ⟨[], fun st => by simp [processLines, h1, h2]⟩
      · obtain ⟨add1, hadd1⟩ := processPayload_deltas (payloadOf l)
        obtain ⟨add2, hadd2⟩ := ih
        refine ⟨add1 ++ add2, fun st => ?_⟩
        have hstep : processLines st (l :: ls) =
            processLines (processPayload st (payloadOf l)) ls := by
          simp [processLines, h1, h2]
        rw [hstep, hadd2, hadd1, List.append_assoc]
    · simp only [Bool.not_eq_true] at h1
      obtain ⟨add2, hadd2⟩ := ih
      refine ⟨add2, fun st => ?_⟩
      have hstep : processLines st (l :: ls) = processLines st ls := by
        simp [processLines, h1]
      rw [hstep, hadd2]

theorem foldl_chunks_deltas (cs : List String) :
    ∃ add : List Json, ∀ st : DecState,
      (List.foldl processChunk st cs).deltas = st.deltas ++ add := by
  induction cs with
  | nil => exact ⟨[], fun st => by simp⟩
  | cons c cs ih =>
    obtain ⟨add1, hadd1⟩ := processLines_deltas (splitNl c)
    obtain ⟨add2, hadd2⟩ := ih
    refine ⟨add1 ++ add2, fun st => ?_⟩
    simp only [List.foldl_cons]
    rw [hadd2, processChunk, hadd1, List.append_assoc]

theorem lines_decode {ls : List String} {fs : List Json} (h : LinesFrames ls fs) :
    ∀ st : DecState,
      processLines st ls = ⟨st.deltas ++ deliveredOf fs, framesUsage st.usage fs⟩ := by
  induction h with
  | nil => intro st; cases st; simp [processLines, deliveredOf, framesUsage]
  | skip l ls fs h1 h2 ih =>
    intro st
    have hstep : processLines st (l :: ls) = processLines st ls := by
      simp [processLines, h1]
    rw [hstep, ih st]
  | frame l j ls fs hv h2 ih =>
    intro st
    obtain ⟨hd, hnd, hp, hnn, hcontent, husage⟩ := hv
    have hstep : processLines st (l :: ls) =
        processLines (processPayload st (payloadOf l)) ls := by
      simp [processLines, hd, hnd]
    rw [hstep, processPayload_valid st _ j hp hnn,
      ih ⟨st.deltas ++ frameDeliver j, usageStep st.usage j⟩]
    refine congrArg₂ DecState.mk (by simp [deliveredOf, List.append_assoc]) ?_
    show framesUsage (usageStep st.usage j) fs = framesUsage st.usage (j :: fs)
    cases hu : jsField j "usage" with
    | none => simp [framesUsage, usageStep, hu]
    | some v =>
      rw [hu] at husage
      cases v <;> simp_all [framesUsage, usageStep, hu, jsTruthy]

theorem LinesFrames_breakFree {ls : List String} {fs : List Json} (h : LinesFrames ls fs) :
    ∀ l ∈ ls, BreakFreeLine l := by
  induction h with
  | nil => intro l hl; cases hl
  | skip l0 ls fs h1 h2 ih =>
    intro l hl
    cases hl with
    | head => intro hd; rw [h1] at hd; cases hd
    | tail _ hmem => exact ih l hmem
  | frame l0 j ls fs hv h2 ih =>
    intro l hl
    cases hl with
    | head => intro _; exact hv.2.1
    | tail _ hmem => exact ih l hmem

theorem processLines_append (ls1 ls2 : List String)
    (h : ∀ l ∈ ls1, BreakFreeLine l) :
    ∀ st : DecState, processLines st (ls1 ++ ls2) = processLines (processLines st ls1) ls2 := by
  induction ls1 with
  | nil => intro st; simp [processLines]
  | cons l ls ih =>
    intro st
    by_cases h1 : isDataLine l = true
    · have h2 : ¬ payloadOf l = "[DONE]" := h l (by simp) h1
      simp only [List.cons_append]
      rw [show processLines st (l :: (ls ++ ls2)) =
            processLines (processPayload st (payloadOf l)) (ls ++ ls2) by
          simp [processLines, h1, h2],
        show processLines st (l :: ls) =
            processLines (processPayload st (payloadOf l)) ls by
          simp [processLines, h1, h2]]
      exact ih (fun x hx => h x (by simp [hx])) _
    · simp only [Bool.not_eq_true] at h1
      simp only [List.cons_append]
      rw [show processLines st (l :: (ls ++ ls2)) = processLines st (ls ++ ls2) by
          simp [processLines, h1],
        show processLines st (l :: ls) = processLines st ls by simp [processLines, h1]]
      exact ih (fun x hx => h x (by simp [hx])) _

theorem decode_eq_processLines (chunks : List String)
    (h : ∀ l ∈ (chunks.map splitNl).flatten, BreakFreeLine l) :
    decodeStream chunks = processLines initDecState (chunks.map splitNl).flatten := by
  suffices hgen : ∀ st : DecState, (∀ l ∈ (chunks.map splitNl).flatten, BreakFreeLine l) →
      List.foldl processChunk st chunks = processLines st (chunks.map splitNl).flatten from
    hgen initDecState h
  induction chunks with
  | nil => intro st _; simp [processLines]
  | cons c cs ih =>
    intro st hh
    simp only [List.map_cons, List.flatten_cons, List.foldl_cons]
    rw [processLines_append (splitNl c) _
      (fun l hl => hh l (by
        simp only [List.map_cons, List.flatten_cons]
        exact List.mem_append_left _ hl)) st]
    exact ih
      (fun l hl => hh l (by
        simp only [List.map_cons, List.flatten_cons]
        exact List.mem_append_right _ hl))
      (processChunk st c)
      (fun l hl => hh l (by
        simp only [List.map_cons, List.flatten_cons]
        exact List.mem_append_right _ hl))

theorem deltasText_fold (ds : List Json) :
    ∀ a : String, ds.foldl (fun x d => x ++ jsonTextOf d) a = a ++ deltasText ds := by
  induction ds with
  | nil => intro a; simp [deltasText, String.append_empty]
  | cons d ds ih =>
    intro a
    have h2 : deltasText (d :: ds) = jsonTextOf d ++ deltasText ds := by
      rw [deltasText, List.foldl_cons, ih, String.empty_append]
    rw [List.foldl_cons, ih, h2, String.append_assoc]

theorem deltasText_cons (d : Json) (ds : List Json) :
    deltasText (d :: ds) = jsonTextOf d ++ deltasText ds := by
  rw [deltasText, List.foldl_cons, deltasText_fold, String.empty_append]

theorem deltasText_append (xs ys : List Json) :
    deltasText (xs ++ ys) = deltasText xs ++ deltasText ys := by
  induction xs with
  | nil => simp [deltasText, String.empty_append]
  | cons x xs ih =>
    rw [List.cons_append, deltasText_cons, deltasText_cons, ih, String.append_assoc]

theorem deltasText_frameDeliver (j : Json)
    (hc : match frameDelta j with
      | none => True
      | some (.str _) => True
      | some _ => False) :
    deltasText (frameDeliver j) = frameTextOf j := by
  unfold frameDeliver frameTextOf
  cases hfd : frameDelta j with
  | none => simp [deltasText]
  | some v =>
    rw [hfd] at hc
    cases v with
    | null => exact hc.elim
    | bool b => exact hc.elim
    | num n => exact hc.elim
    | arr xs => exact hc.elim
    | obj kvs => exact hc.elim
    | str s =>
      by_cases hs : s = ""
      · subst hs; simp [jsTruthy, deltasText]
      · simp only [jsTruthy, hs, if_false]
        rw [if_pos (by simp [hs]), deltasText_cons, deltasText, List.foldl_nil,
          String.append_empty]
        rfl

theorem LinesFrames_content {ls : List String} {fs : List Json} (h : LinesFrames ls fs) :
    ∀ j ∈ fs, (match frameDelta j with
      | none => True
      | some (.str _) => True
      | some _ => False) := by
  induction h with
  | nil => intro j hj; cases hj
  | skip l ls fs h1 h2 ih => exact ih
  | frame l j0 ls fs hv h2 ih =>
    intro j hj
    cases hj with
    | head => exact hv.2.2.2.2.1
    | tail _ hmem => exact ih j hmem

theorem deltasText_deliveredOf {fs : List Json}
    (hc : ∀ j ∈ fs, (match frameDelta j with
      | none => True
      | some (.str _) => True
      | some _ => False)) :
    deltasText (deliveredOf fs) = framesText fs := by
  induction fs with
  | nil => simp [deliveredOf, framesText, deltasText]
  | cons j fs ih =>
    rw [deliveredOf, framesText, deltasText_append,
      deltasText_frameDeliver j (hc j (by simp)), ih (fun x hx => hc x (by simp [hx]))]

/-! ## Claim C1 -/

/-- Claim C1: for every sequence of valid protocol frames fed to the streaming
decoder, the concatenation of the text deltas delivered to the sink equals the
concatenation of each frame's `choices[0].delta.content` in arrival order, and
the usage record at stream end is the last usage object seen on any frame
(last-seen wins). -/
theorem decode_valid_frames_text_usage (chunks : List String) (fs : List Json)
    (h : LinesFrames ((chunks.map splitNl).flatten) fs) :
    deltasText (decodeStream chunks).deltas = framesText fs ∧
    (decodeStream chunks).usage = framesUsage (Json.obj []) fs := by
  rw [decode_eq_processLines chunks (LinesFrames_breakFree h),
    lines_decode h initDecState]
  exact ⟨by
    show deltasText ((initDecState.deltas : List Json) ++ deliveredOf fs) = framesText fs
    rw [show (initDecState.deltas : List Json) = [] from rfl, List.nil_append]
    exact deltasText_deliveredOf (LinesFrames_content h), rfl⟩

/-- Witness for C1: a two-chunk stream carrying three frames (the second chunk
holds two lines, the last frame carries the usage record). -/
theorem decode_valid_frames_text_usage_witness :
    deltasText (decodeStream
      ["data: \x7b\"choices\":[\x7b\"delta\":\x7b\"content\":\"He\"\x7d\x7d]\x7d\n",
       "data: \x7b\"choices\":[\x7b\"delta\":\x7b\"content\":\"llo\"\x7d\x7d]\x7d\ndata: \x7b\"usage\":\x7b\"total_tokens\":7\x7d,\"choices\":[\x7b\"delta\":\x7b\x7d\x7d]\x7d\n"]).deltas
      = "Hello" ∧
    (decodeStream
      ["data: \x7b\"choices\":[\x7b\"delta\":\x7b\"content\":\"He\"\x7d\x7d]\x7d\n",
       "data: \x7b\"choices\":[\x7b\"delta\":\x7b\"content\":\"llo\"\x7d\x7d]\x7d\ndata: \x7b\"usage\":\x7b\"total_tokens\":7\x7d,\"choices\":[\x7b\"delta\":\x7b\x7d\x7d]\x7d\n"]).usage
      = Json.obj [("total_tokens", Json.num 7)] :=
  decode_valid_frames_text_usage _
    [Json.obj [("choices", .arr [.obj [("delta", .obj [("content", .str "He")])]])],
     Json.obj [("choices", .arr [.obj [("delta", .obj [("content", .str "llo")])]])],
     Json.obj [("usage", .obj [("total_tokens", .num 7)]),
       ("choices", .arr [.obj [("delta", .obj [])]])]]
    (by
      refine .frame _ _ _ _ ⟨rfl, by decide, rfl, rfl, trivial, trivial⟩ ?_
      refine .skip _ _ _ rfl ?_
      refine .frame _ _ _ _ ⟨rfl, by decide, rfl, rfl, trivial, trivial⟩ ?_
      refine .frame _ _ _ _ ⟨rfl, by decide, rfl, rfl, trivial, trivial⟩ ?_
      exact .skip _ _ _ rfl .nil)

/-! ## Claim C3 -/

/-- Claim C3 counterexample: a `data: ` line split across two physical chunks
is not reassembled - the two-chunk stream delivers no delta, while the same
bytes in one chunk deliver the frame's delta. -/
theorem split_line_dropped_cex :
    (decodeStream ["data: \x7b\"choices\":[\x7b\"delta\":\x7b\"cont",
        "ent\":\"hi\"\x7d\x7d]\x7d\n"]).deltas = ([] : List Json) ∧
    (decodeStream ["data: \x7b\"choices\":[\x7b\"delta\":\x7b\"cont" ++
        "ent\":\"hi\"\x7d\x7d]\x7d\n"]).deltas = [Json.str "hi"] ∧
    ([] : List Json) ≠ [Json.str "hi"] :=
  ⟨rfl, rfl, fun h => List.noConfusion h⟩

/-- Claim C3 amended: the decoder holds no partial-line buffer across chunk
boundaries - the delivered deltas are exactly the concatenation of each chunk's
independently decoded deltas (so a line spanning two chunks contributes
nothing). -/
theorem decode_deltas_chunkwise (chunks : List String) :
    (decodeStream chunks).deltas =
      (chunks.map (fun c => (processChunk initDecState c).deltas)).flatten := by
  induction chunks with
  | nil => simp [decodeStream, initDecState]
  | cons c cs ih =>
    obtain ⟨add, hadd⟩ := foldl_chunks_deltas cs
    have h1 : (decodeStream (c :: cs)).deltas = (processChunk initDecState c).deltas ++ add := by
      simp only [decodeStream, List.foldl_cons]
      exact hadd (processChunk initDecState c)
    have h2 : (decodeStream cs).deltas = add := by
      have := hadd initDecState
      simpa [decodeStream, initDecState] using this
    simp [h1, ← h2, ih]

/-! ## Claim C4 -/

/-- Claim C4 counterexample: a frame arriving in a chunk after the chunk that
carried `data: [DONE]` is still decoded (its delta is delivered), so decoding
does not terminate at `[DONE]` across chunk boundaries. -/
theorem done_frames_after_cex :
    (decodeStream ["data: [DONE]\n",
        "data: \x7b\"choices\":[\x7b\"delta\":\x7b\"content\":\"x\"\x7d\x7d]\x7d\n"]).deltas =
      [Json.str "x"] ∧
    (decodeStream ["data: [DONE]\n"]).deltas = ([] : List Json) ∧
    [Json.str "x"] ≠ ([] : List Json) :=
  ⟨rfl, rfl, fun h => List.noConfusion h⟩

/-- Claim C4 amended: a `data: [DONE]` line stops the processing of the
remaining lines of its own chunk only; subsequent chunks are decoded as if the
`[DONE]` chunk had not occurred (here stated for a chunk that begins with the
terminator line). -/
theorem done_breaks_only_within_chunk :
    (∀ (l : String) (st : DecState) (rest : List String),
        isDataLine l = true → payloadOf l = "[DONE]" →
        processLines st (l :: rest) = st) ∧
    (∀ (c hd : String) (tl cs : List String),
        splitNl c = hd :: tl → isDataLine hd = true → payloadOf hd = "[DONE]" →
        decodeStream (c :: cs) = decodeStream cs) := by
  constructor
  · intro l st rest h1 h2
    simp [processLines, h1, h2]
  · intro c hd tl cs hsplit h1 h2
    have hchunk : processChunk initDecState c = initDecState := by
      rw [processChunk, hsplit]
      simp [processLines, h1, h2]
    simp only [decodeStream, List.foldl_cons]
    rw [hchunk]

/-- Witness for the amended C4. -/
theorem done_breaks_only_within_chunk_witness :
    processLines initDecState ["data: [DONE]",
      "data: \x7b\"choices\":[\x7b\"delta\":\x7b\"content\":\"y\"\x7d\x7d]\x7d"] = initDecState ∧
    decodeStream ["data: [DONE]\n",
      "data: \x7b\"choices\":[\x7b\"delta\":\x7b\"content\":\"y\"\x7d\x7d]\x7d\n"] =
      decodeStream ["data: \x7b\"choices\":[\x7b\"delta\":\x7b\"content\":\"y\"\x7d\x7d]\x7d\n"] :=
  ⟨done_breaks_only_within_chunk.1 _ initDecState _ rfl rfl,
   done_breaks_only_within_chunk.2 _ "data: [DONE]" [""] _ rfl rfl rfl⟩

/-! ## Supporting lemmas: conversation updates -/

theorem updateTrailing_concat (f : Msg → Msg) (xs : List Msg) (m : Msg) :
    updateTrailing f (xs ++ [m]) = xs ++ [if m.pending then f m else m] := by
  unfold updateTrailing
  rw [List.mapIdx_append]
  congr 1
  · apply List.ext_getElem (by simp)
    intro i h1 h2
    rw [List.getElem_mapIdx]
    simp only [List.length_append, List.length_singleton, Nat.add_sub_cancel]
    have hi : ¬ i = xs.length := by omega
    simp [hi]
  · simp only [List.mapIdx_cons, List.mapIdx_nil]
    have h0 : 0 + xs.length = (xs ++ [m]).length - 1 := by simp
    simp [h0]

theorem applyDeltas_concat (xs : List Msg) (m : Msg) (hm : m.pending = true) :
    ∀ (ds : List String) (acc : String),
      applyDeltas (xs ++ [m]) acc ds =
        (xs ++ [{ m with content := if ds.isEmpty then m.content else acc ++ concatStr ds }],
         acc ++ concatStr ds) := by
  intro ds
  induction ds generalizing m with
  | nil =>
    intro acc
    simp [applyDeltas, concatStr, String.append_empty]
  | cons d ds ih =>
    intro acc
    rw [applyDeltas, updateTrailing_concat, if_pos hm]
    rw [ih { m with content := acc ++ d } hm (acc ++ d)]
    cases ds with
    | nil => simp [concatStr, String.append_empty, String.append_assoc]
    | cons a b => simp [concatStr, String.append_assoc]

theorem updateTrailing_asst (model c b : String) (base : List Msg) :
    updateTrailing (fun m => { m with content := c }) (base ++ [asstPh model b]) =
      base ++ [asstPh model c] := by
  rw [updateTrailing_concat]
  simp [asstPh]

theorem applyLoopDeltas_inv (base : List Msg) (model : String) :
    ∀ (ds : List String) (ts : TurnState) (acc b : String),
      ts.conv = base ++ [asstPh model b] →
      ∃ b2, (applyLoopDeltas ts acc ds).1.conv = base ++ [asstPh model b2] := by
  intro ds
  induction ds with
  | nil => intro ts acc b hb; exact ⟨b, by simpa [applyLoopDeltas] using hb⟩
  | cons d ds ih =>
    intro ts acc b hb
    rw [applyLoopDeltas]
    exact ih _ (acc ++ d) (ts.dp ++ (acc ++ d))
      (by simp only [hb]; exact updateTrailing_asst model _ b base)

theorem execTools_inv (search : Json → String) (base : List Msg) (model : String) :
    ∀ (tcs : List ToolCall) (ts : TurnState) (b : String),
      ts.conv = base ++ [asstPh model b] →
      ∃ b2, (execTools search tcs ts).conv = base ++ [asstPh model b2] := by
  intro tcs
  induction tcs with
  | nil => intro ts b hb; exact ⟨b, by simpa [execTools] using hb⟩
  | cons tc tcs ih =>
    intro ts b hb
    show ∃ b2, (execTools search tcs _).conv = _
    exact ih _ (ts.dp ++ searchLine tc)
      (by simp only [hb]; exact updateTrailing_asst model _ b base)

theorem toolStep_inv (oracle : List ApiMsg → StreamTurn) (search : Json → String)
    (base : List Msg) (model : String) (ts : TurnState) (b : String)
    (hb : ts.conv = base ++ [asstPh model b]) :
    ∃ b2, (toolStep oracle search ts).conv = base ++ [asstPh model b2] := by
  obtain ⟨b1, hb1⟩ :=
    applyLoopDeltas_inv base model (oracle ts.apiMsgs).deltas ts "" b hb
  obtain ⟨b2, hb2⟩ := execTools_inv search base model (oracle ts.apiMsgs).toolCalls
    (midState oracle ts) b1 hb1
  exact ⟨b2, hb2⟩

theorem toolLoop_bound (oracle : List ApiMsg → StreamTurn) (search : Json → String) :
    ∀ (fuel : Nat) (ts : TurnState), (toolLoop oracle search fuel ts).1 ≤ fuel := by
  intro fuel
  induction fuel with
  | zero => intro ts; simp [toolLoop]
  | succ n ih =>
    intro ts
    rw [toolLoop]
    by_cases he : (oracle ts.apiMsgs).toolCalls.isEmpty
    · simp only [he, if_true]
      omega
    · simp only [he, if_false]
      exact Nat.succ_le_succ (ih (toolStep oracle search ts))

theorem toolLoop_inv (oracle : List ApiMsg → StreamTurn) (search : Json → String)
    (base : List Msg) (model : String) :
    ∀ (fuel : Nat) (ts : TurnState) (b : String),
      ts.conv = base ++ [asstPh model b] →
      ∃ b2, (toolLoop oracle search fuel ts).2.conv = base ++ [asstPh model b2] := by
  intro fuel
  induction fuel with
  | zero => intro ts b hb; exact ⟨b, by simpa [toolLoop] using hb⟩
  | succ n ih =>
    intro ts b hb
    rw [toolLoop]
    by_cases he : (oracle ts.apiMsgs).toolCalls.isEmpty
    · simp only [he, if_true]
      exact applyLoopDeltas_inv base model (oracle ts.apiMsgs).deltas ts "" b hb
    · simp only [he, if_false]
      obtain ⟨b2, hb2⟩ := toolStep_inv oracle search base model ts b hb
      exact ih (toolStep oracle search ts) b2 hb2

/-! ## Claim C2 -/

/-- Claim C2 counterexample: cancelling after one delivered delta leaves the
trailing assistant turn with `pending = true` - the claim's `pending = false`
does not hold (content and the absent error flag are as claimed). -/
theorem abort_leaves_pending_set_cex :
    runSendMessage [] "hi" "m" (.aborted ["Hel"]) =
      [{ role := .user, content := "hi" },
       { role := .assistant, content := "Hel", model := some "m",
         pending := true, error := false }] ∧
    (runSendMessage [] "hi" "m" (.aborted ["Hel"])).getLast?.map Msg.pending = some true :=
  ⟨rfl, rfl⟩

/-- Claim C2 amended: a turn cancelled mid-stream keeps the accumulated content
and gains no error flag, but its `pending` flag is left set - the `AbortError`
branch returns before the completion block runs. -/
theorem abort_keeps_pending_flag (history : List Msg) (input model : String)
    (ds : List String) :
    runSendMessage history input model (.aborted ds) =
      history ++ [{ role := .user, content := jsTrim input },
        { role := .assistant, content := concatStr ds, model := some model,
          pending := true, error := false }] := by
  simp only [runSendMessage]
  have hsplit : history ++
      [({ role := .user, content := jsTrim input } : Msg),
       ({ role := .assistant, content := "", model := some model, pending := true } : Msg)] =
      (history ++ [{ role := .user, content := jsTrim input }]) ++
        [{ role := .assistant, content := "", model := some model, pending := true }] := by
    simp
  rw [hsplit, applyDeltas_concat _ _ rfl ds ""]
  cases ds with
  | nil => simp [concatStr]
  | cons d ds => simp [String.empty_append]

/-! ## Claim C5 -/

/-- Claim C5: the agentic tool-call loop performs at most 5 round trips per
user turn, for every possible model behavior (oracle) and search collaborator,
and the turn then completes: the trailing assistant turn ends with
`pending = false`, no error flag, and whatever content accumulated. -/
theorem tool_loop_bounded_completes (oracle : List ApiMsg → StreamTurn)
    (search : Json → String) (conv0 : List Msg) (initMsgs : List ApiMsg)
    (input model : String) :
    (runTurn oracle search conv0 initMsgs input model).1 ≤ 5 ∧
    ∃ body, (runTurn oracle search conv0 initMsgs input model).2 =
      conv0 ++ [{ role := .user, content := jsTrim input },
        { role := .assistant, content := body, model := some model,
          pending := false, error := false }] := by
  unfold runTurn
  refine ⟨toolLoop_bound oracle search 5 _, ?_⟩
  have hstart : (⟨initMsgs, "",
      conv0 ++ [{ role := .user, content := jsTrim input },
        { role := .assistant, content := "", model := some model, pending := true }]⟩ :
      TurnState).conv =
      (conv0 ++ [{ role := .user, content := jsTrim input }]) ++ [asstPh model ""] := by
    simp [asstPh]
  obtain ⟨b2, hb2⟩ := toolLoop_inv oracle search
    (conv0 ++ [{ role := .user, content := jsTrim input }]) model 5 _ "" hstart
  refine ⟨b2, ?_⟩
  simp only [markComplete, hb2, updateTrailing_concat]
  simp [asstPh]

/-! ## Supporting lemmas: catalog cache -/

theorem fetchStep_token_match (s : CacheState) (t : String) (ff : Bool) (now : Nat)
    (htok : s.cacheToken = some t) :
    fetchModelsStep s t ff now =
      (match s.cache, ff with
        | some entries, false =>
          if now - s.cacheTime < MODEL_CACHE_TTL then (.cached entries, s)
          else continueFetch s
        | _, _ => continueFetch s) := by
  unfold fetchModelsStep
  rw [if_pos htok]

/-- When no valid cached result exists for the call's credential and time, the
cache-hit fast path cannot fire and the call reaches the promise check. -/
theorem fetchStep_hit_fails (s : CacheState) (t : String) (ff : Bool) (now : Nat)
    (htok : s.cacheToken = some t) (hinv : ¬ cacheValidAt s t now) :
    fetchModelsStep s t ff now = continueFetch s := by
  rw [fetchStep_token_match s t ff now htok]
  cases hc : s.cache with
  | none => cases ff <;> rfl
  | some entries =>
    cases ff with
    | true => rfl
    | false =>
      have hstale : ¬ now - s.cacheTime < MODEL_CACHE_TTL := by
        intro hfresh
        exact hinv ⟨htok, by simp [hc], hfresh⟩
      simp only [hstale, if_false]

/-- After a first call made with no valid cached result, the state carries an
in-flight promise for the credential, the call's outcome named that promise,
and the cache is still not valid for a second call. -/
theorem fetchStep_invalid_first (st0 : CacheState) (t : String) (ff1 : Bool)
    (now1 now2 : Nat) (h1 : ¬ cacheValidAt st0 t now1) (h2 : ¬ cacheValidAt st0 t now2) :
    (fetchModelsStep st0 t ff1 now1).2.cacheToken = some t ∧
    ¬ cacheValidAt (fetchModelsStep st0 t ff1 now1).2 t now2 ∧
    ∃ p, (fetchModelsStep st0 t ff1 now1).2.cachePromiseId = some p ∧
      ((fetchModelsStep st0 t ff1 now1).1 = .shared p ∨
        (fetchModelsStep st0 t ff1 now1).1 = .launched p) := by
  by_cases htok : st0.cacheToken = some t
  · rw [fetchStep_hit_fails st0 t ff1 now1 htok h1]
    unfold continueFetch
    cases hp : st0.cachePromiseId with
    | none =>
      refine ⟨htok, ?_, st0.nextId, rfl, Or.inr rfl⟩
      intro hval
      exact h2 ⟨htok, hval.2.1, hval.2.2⟩
    | some p =>
      refine ⟨htok, ?_, p, hp, Or.inl rfl⟩
      intro hval
      exact h2 ⟨htok, hval.2.1, hval.2.2⟩
  · unfold fetchModelsStep continueFetch
    simp_all [cacheValidAt]

theorem fetchStep_promised (s : CacheState) (t : String) (ff : Bool) (now : Nat) (p : Nat)
    (htok : s.cacheToken = some t) (hp : s.cachePromiseId = some p)
    (hinv : ¬ cacheValidAt s t now) :
    fetchModelsStep s t ff now = (.shared p, s) := by
  rw [fetchStep_hit_fails s t ff now htok hinv]
  unfold continueFetch
  rw [hp]

/-! ## Claim C6 -/

/-- Claim C6: two back-to-back resolution calls with the same credential and no
valid cached result (the cache may be cold, built for another credential, or
TTL-expired) issue at most one network request, and whenever the first call
launches the fetch, the second receives the very same in-flight promise. -/
theorem fetch_dedup_single_request (st0 : CacheState) (t : String) (ff1 ff2 : Bool)
    (now1 now2 : Nat) (h1 : ¬ cacheValidAt st0 t now1) (h2 : ¬ cacheValidAt st0 t now2) :
    launches (fetchModelsStep st0 t ff1 now1).1 +
      launches (fetchModelsStep (fetchModelsStep st0 t ff1 now1).2 t ff2 now2).1 ≤ 1 ∧
    ∀ p, (fetchModelsStep st0 t ff1 now1).1 = .launched p →
      (fetchModelsStep (fetchModelsStep st0 t ff1 now1).2 t ff2 now2).1 = .shared p := by
  obtain ⟨htok1, hinv2, p, hp1, hout1⟩ := fetchStep_invalid_first st0 t ff1 now1 now2 h1 h2
  have hcall2 := fetchStep_promised _ t ff2 now2 p htok1 hp1 hinv2
  constructor
  · rw [hcall2]
    cases hout1 with
    | inl h => rw [h]; simp [launches]
    | inr h => rw [h]; simp [launches]
  · intro q hq
    rw [hcall2]
    cases hout1 with
    | inl h => rw [h] at hq; cases hq
    | inr h =>
      rw [h] at hq
      cases hq
      rfl

/-- Witness for C6, exercising the TTL-expired same-credential case: the cache
holds an entry for the very credential, but both calls arrive at or past the
one-hour TTL, so the first launches promise 0 and the second shares it. -/
theorem fetch_dedup_single_request_witness :
    launches (fetchModelsStep ⟨some [], 0, some "tok", none, 0⟩ "tok" false 3600000).1 +
      launches (fetchModelsStep
        (fetchModelsStep ⟨some [], 0, some "tok", none, 0⟩ "tok" false 3600000).2
        "tok" false 3600001).1 ≤ 1 ∧
    (fetchModelsStep
      (fetchModelsStep ⟨some [], 0, some "tok", none, 0⟩ "tok" false 3600000).2
      "tok" false 3600001).1 = .shared 0 :=
  ⟨(fetch_dedup_single_request ⟨some [], 0, some "tok", none, 0⟩ "tok" false false
      3600000 3600001 (fun h => absurd h.2.2 (by decide)) (fun h => absurd h.2.2 (by decide))).1,
   (fetch_dedup_single_request ⟨some [], 0, some "tok", none, 0⟩ "tok" false false
      3600000 3600001 (fun h => absurd h.2.2 (by decide)) (fun h => absurd h.2.2 (by decide))).2
     0 rfl⟩

/-! ## Claim C7 -/

/-- Claim C7: every outbound streaming chat request body carries the model id,
the messages, a temperature, max_tokens, and `stream: true`; when the caller
supplies tool descriptors (as the tool-call loop does whenever a search key is
configured) the body carries them in its `tools` field. -/
theorem stream_body_shape (modelId : String) (messages : List ApiMsg) (temp : Rat)
    (maxTok : Nat) (braveKey : String) :
    (streamRequestBody modelId messages
        (buildStreamOptions temp maxTok (configuredTools braveKey))).model = modelId ∧
    (streamRequestBody modelId messages
        (buildStreamOptions temp maxTok (configuredTools braveKey))).messages = messages ∧
    (streamRequestBody modelId messages
        (buildStreamOptions temp maxTok (configuredTools braveKey))).temperature = temp ∧
    (streamRequestBody modelId messages
        (buildStreamOptions temp maxTok (configuredTools braveKey))).maxTokens = maxTok ∧
    (streamRequestBody modelId messages
        (buildStreamOptions temp maxTok (configuredTools braveKey))).stream = true ∧
    (¬ braveKey = "" →
      (streamRequestBody modelId messages
        (buildStreamOptions temp maxTok (configuredTools braveKey))).tools =
        some [braveSearchTool]) := by
  refine ⟨rfl, rfl, rfl, rfl, rfl, fun h => ?_⟩
  simp [streamRequestBody, buildStreamOptions, configuredTools, h]

/-- Witness for C7 with a configured search key. -/
theorem stream_body_shape_witness :
    (streamRequestBody "gpt-4o" []
      (buildStreamOptions (7 / 10 : Rat) 4096 (configuredTools "key"))).stream = true ∧
    (streamRequestBody "gpt-4o" []
      (buildStreamOptions (7 / 10 : Rat) 4096 (configuredTools "key"))).tools =
      some [braveSearchTool] :=
  ⟨(stream_body_shape "gpt-4o" [] (7 / 10) 4096 "key").2.2.2.2.1,
   (stream_body_shape "gpt-4o" [] (7 / 10) 4096 "key").2.2.2.2.2 (by decide)⟩

/-! ## Claim C8 -/

/-- Claim C8 counterexample: on the claim's input the extractor returns the
nested quota object itself, `{quota: 300, used: 120}` - it carries no
`overage`, `overageUsd` or `overage_usd` field at all, against the claimed
`{quota: 300, used: 120, overage: 0, overageUsd: 0}`. -/
theorem extract_quota_no_overage_cex :
    extractPremiumQuota
        (.obj [("chat_premium_requests", .obj [("quota", .num 300), ("used", .num 120)])])
        .null .null =
      some (.obj [("quota", .num 300), ("used", .num 120)]) ∧
    (extractPremiumQuota
        (.obj [("chat_premium_requests", .obj [("quota", .num 300), ("used", .num 120)])])
        .null .null).bind (fun q => jsField q "overage") = none ∧
    (extractPremiumQuota
        (.obj [("chat_premium_requests", .obj [("quota", .num 300), ("used", .num 120)])])
        .null .null).bind (fun q => jsField q "overageUsd") = none ∧
    (extractPremiumQuota
        (.obj [("chat_premium_requests", .obj [("quota", .num 300), ("used", .num 120)])])
        .null .null).bind (fun q => jsField q "overage_usd") = none :=
  ⟨rfl, rfl, rfl, rfl⟩

/-- Claim C8 amended: for any truthy value under the `chat_premium_requests`
key, the extractor returns that nested object verbatim (no overage fields are
added; the call sites default `overage`/`overage_usd` to 0 themselves). -/
theorem extract_quota_returns_nested (q : Json) (hq : jsTruthy q = true) :
    extractPremiumQuota (.obj [("chat_premium_requests", q)]) .null .null = some q := by
  cases q <;> simp_all [extractPremiumQuota, quotaFromLimited, jsField, jsGuard, jsTruthy]

/-- Witness for the amended C8 at the claim's own input. -/
theorem extract_quota_returns_nested_witness :
    extractPremiumQuota
        (.obj [("chat_premium_requests", .obj [("quota", .num 300), ("used", .num 120)])])
        .null .null =
      some (.obj [("quota", .num 300), ("used", .num 120)]) :=
  extract_quota_returns_nested _ rfl

/-! ## Claim C9 -/

/-- Claim C9 counterexample: with an orchestration active for conversation
`convA`, a send targeting the different conversation `convB` is rejected - the
guard consults only the global `streaming` flag, so sends to different
conversations cannot run concurrently. -/
theorem send_rejected_diff_conv_cex :
    handleSendStep ⟨true, "hi", some "convB", some "convA"⟩ (some "gpt-4o") = .rejected ∧
    (⟨true, "hi", some "convB", some "convA"⟩ : CoordState).orchTarget = some "convA" ∧
    convKey ⟨true, "hi", some "convB", some "convA"⟩ = "convB" ∧
    ¬ ("convA" = "convB") :=
  ⟨rfl, rfl, rfl, by decide⟩

/-- Claim C9 amended: sends are serialized globally, not per conversation - a
new send is rejected while any orchestration is active, whatever conversation
either one targets (only the compare-mode pair launched inside a single
accepted send runs concurrently). -/
theorem send_serialized_globally (st : CoordState) (sel : Option String)
    (h : st.streaming = true) :
    handleSendStep st sel = .rejected := by
  simp [handleSendStep, h]

/-- Witness for the amended C9 (same conversation active and targeted). -/
theorem send_serialized_globally_witness :
    handleSendStep ⟨true, "hello", some "c1", some "c1"⟩ (some "m") = .rejected :=
  send_serialized_globally ⟨true, "hello", some "c1", some "c1"⟩ (some "m") rfl

/-! ## Claim C10 -/

/-- Claim C10: calling the resolver with `forceRefresh` while a fetch for the
same credential is in flight returns the existing in-flight promise unchanged
and issues no second network request - force refresh bypasses only the
completed cache. -/
theorem force_refresh_shares_inflight (st : CacheState) (t : String) (now : Nat) (p : Nat)
    (ht : st.cacheToken = some t) (hp : st.cachePromiseId = some p) :
    fetchModelsStep st t true now = (.shared p, st) := by
  unfold fetchModelsStep continueFetch
  cases hc : st.cache <;> simp [ht, hp, hc]

/-- Witness for C10: a warm cache with an in-flight promise. -/
theorem force_refresh_shares_inflight_witness :
    fetchModelsStep ⟨some [], 50, some "tok", some 3, 4⟩ "tok" true 60 =
      (.shared 3, ⟨some [], 50, some "tok", some 3, 4⟩) :=
  force_refresh_shares_inflight ⟨some [], 50, some "tok", some 3, 4⟩ "tok" 60 3 rfl rfl

end CopilotApp
